import Mathlib

/-!
Verification of the odinweb routing/dispatch library against its
natural-language specification.

The definitions below are shallow embeddings of the Python source:

* `odinweb/data_structures.py` — `UrlPath`, `PathParam`, `_add_nodes`,
  `Response`, `MiddlewareList`, `MultiValueDict`
* `odinweb/utils.py` — `sort_by_priority`, `to_bool`
* `odinweb/decorators.py` — `Operation.__eq__`, `WrappedListOperation.execute`
* `odinweb/containers.py` — `ApiInterfaceBase.__init__`,
  `ApiInterfaceBase.dispatch_operation`, `ApiInterfaceBase.handle_500`
* `odinweb/helpers.py` — `create_response`
* `odinweb/resources.py` — `Error.from_status`
* `odinweb/signing.py` — `_generate_signature`, `sign_url_path`,
  `verify_url_path`

Python strings are modelled as `List Char` (or `String` where they are
only concatenated), Python integers as `Int`/`Nat`, `None` as `Option`,
and raised exceptions as `Except`.
-/

/-! ### Character classes

`PATH_NODE_RE = r'^{([a-zA-Z]\w*)(?::([a-zA-Z]\w*))?(?::([-^$+*:\w\\\[\]\|]+))?}$'`
from `data_structures.py`.  `\w` is modelled over the ASCII range handled by
`Char.isAlphanum`.
-/

def lbrace : Char := Char.ofNat 123

def rbrace : Char := Char.ofNat 125

def isWordChar (c : Char) : Bool := c.isAlphanum || c == '_'

def isArgChar (c : Char) : Bool :=
  isWordChar c || c == '-' || c == '^' || c == '$' || c == '+' || c == '*' ||
    c == ':' || c == '\\' || c == '[' || c == ']' || c == '|'

/-! ### The `Type` enum of `constants.py` (API data types) -/

inductive Ty where
  | Integer | Long | Float | Double | String | Byte | Binary | Boolean
  | Date | Time | DateTime | Password | Email | Regex
deriving DecidableEq

/-- The `name` of each `Type` enum member (the Python member identifier). -/
def tyName (t : Ty) : List Char :=
  (match t with
   | .Integer => "Integer"
   | .Long => "Long"
   | .Float => "Float"
   | .Double => "Double"
   | .String => "String"
   | .Byte => "Byte"
   | .Binary => "Binary"
   | .Boolean => "Boolean"
   | .Date => "Date"
   | .Time => "Time"
   | .DateTime => "DateTime"
   | .Password => "Password"
   | .Email => "Email"
   | .Regex => "Regex").data

def allTys : List Ty :=
  [.Integer, .Long, .Float, .Double, .String, .Byte, .Binary, .Boolean,
   .Date, .Time, .DateTime, .Password, .Email, .Regex]

/-- `Type[param_type]`: looking an enum member up by name (`KeyError` ↦ `none`). -/
def tyOfName (s : List Char) : Option Ty := allTys.find? (fun t => tyName t == s)

/-! ### `UrlPath` and `PathParam` (`data_structures.py`)

A `UrlPath` node is either a literal string segment or a `PathParam`
(`NamedTuple('PathParam', [('name', str), ('type', Type), ('type_args', Optional[str])])`,
where the `type` slot may also hold Python `None`).
-/

structure PathParam where
  name : List Char
  ty : Option Ty
  typeArgs : Option (List Char)
deriving DecidableEq

inductive UNode where
  | lit (s : List Char)
  | param (p : PathParam)
deriving DecidableEq

structure UrlPath where
  nodes : List UNode
deriving DecidableEq

/-- `_add_nodes(a, b)`: raises `ValueError` when `b` is nonempty and its first
node equals the empty string (a `PathParam` never equals a Python `str`). -/
def addNodes (a b : List UNode) : Except String (List UNode) :=
  match b with
  | .lit [] :: _ => .error "Right hand argument cannot be absolute."
  | _ => .ok (a ++ b)

/-- `UrlPath.__add__` restricted to a `UrlPath` right operand. -/
def urlPathAdd (a b : UrlPath) : Except String UrlPath :=
  (addNodes a.nodes b.nodes).map UrlPath.mk

/-- `UrlPath.is_absolute`: `len(self._nodes) and self._nodes[0] == ''`. -/
def urlPathIsAbsolute (p : UrlPath) : Bool :=
  match p.nodes with
  | .lit [] :: _ => true
  | _ => false

/-- `UrlPath.odinweb_node_formatter`: renders `{name}` / `{name:Type}` /
`{name:Type:args}`, skipping the falsy (`None` or empty) slots. -/
def odinwebNodeFormatter (p : PathParam) : List Char :=
  let args : List (List Char) :=
    [p.name] ++
      (match p.ty with | some t => [tyName t] | none => []) ++
      (match p.typeArgs with
       | some a => if a.isEmpty then [] else [a]
       | none => [])
  [lbrace] ++ List.intercalate [':'] args ++ [rbrace]

def renderNode : UNode → List Char
  | .lit s => s
  | .param p => odinwebNodeFormatter p

/-- `UrlPath.format()` with the default node formatter. -/
def urlPathFormat (p : UrlPath) : List Char :=
  if p.nodes = [UNode.lit []] then ['/']
  else List.intercalate ['/'] (p.nodes.map renderNode)

/-- `str.rstrip('/')`. -/
def rstripSlash (s : List Char) : List Char :=
  (s.reverse.dropWhile (· == '/')).reverse

/-- The third capture group of `PATH_NODE_RE`: one or more characters from
`[-^$+*:\w\\\[\]\|]`, consuming the rest of the interior. -/
def tryArgGroup (r : List Char) : Option (List Char) :=
  if r.isEmpty then none
  else if r.all isArgChar then some r else none

/-- Matching of `PATH_NODE_RE` against the text between the braces.  The
regex `([a-zA-Z]\w*)(?::([a-zA-Z]\w*))?(?::(args))?` is deterministic once the
greedy word runs are taken maximal; when the optional second group cannot
complete the match, the engine backtracks and the whole remainder after the
first colon is offered to the third group. -/
def matchInterior (t : List Char) :
    Option (List Char × Option (List Char) × Option (List Char)) :=
  match t with
  | [] => none
  | a :: t1 =>
    if a.isAlpha then
      let nameGroup := a :: t1.takeWhile isWordChar
      match t1.dropWhile isWordChar with
      | [] => some (nameGroup, none, none)
      | c :: r =>
        if c == ':' then
          match r with
          | [] => none
          | b :: r1 =>
            if b.isAlpha then
              let typeGroup := b :: r1.takeWhile isWordChar
              match r1.dropWhile isWordChar with
              | [] => some (nameGroup, some typeGroup, none)
              | c2 :: r2 =>
                if c2 == ':' then
                  match tryArgGroup r2 with
                  | some ag => some (nameGroup, some typeGroup, some ag)
                  | none =>
                    (tryArgGroup r).map (fun ag => (nameGroup, none, some ag))
                else (tryArgGroup r).map (fun ag => (nameGroup, none, some ag))
            else (tryArgGroup r).map (fun ag => (nameGroup, none, some ag))
        else none
    else none

/-- `PATH_NODE_RE.match(node)`: the node must be `{interior}`. -/
def matchPathNode (chunk : List Char) :
    Option (List Char × Option (List Char) × Option (List Char)) :=
  match chunk with
  | [] => none
  | c :: rest =>
    if c == lbrace then
      match rest.getLast? with
      | some d => if d == rbrace then matchInterior rest.dropLast else none
      | none => none
    else none

/-- One node of `UrlPath.parse`: a chunk containing a brace must match
`PATH_NODE_RE`; an unknown type name raises unless the type group was absent
(in which case the type defaults to `Type.Integer`). -/
def parseNode (chunk : List Char) : Except String UNode :=
  if chunk.contains lbrace || chunk.contains rbrace then
    match matchPathNode chunk with
    | none => .error "Invalid path param"
    | some (name, pType, pArg) =>
      match pType with
      | some tn =>
        match tyOfName tn with
        | some t => .ok (.param ⟨name, some t, pArg⟩)
        | none => .error "Unknown param type"
      | none => .ok (.param ⟨name, some Ty.Integer, pArg⟩)
  else .ok (.lit chunk)

/-- `UrlPath.parse`. -/
def urlPathParse (s : List Char) : Except String UrlPath :=
  if s = [] then .ok ⟨[]⟩
  else do
    let nodes ← ((rstripSlash s).splitOn '/').mapM parseNode
    return ⟨nodes⟩

/-- The literal template `'{key_field}'` used by operation path templates. -/
def keyFieldToken : List Char := [lbrace] ++ "key_field".data ++ [rbrace]

/-- `str.format(key_field=kf)` as used by `Operation.path` via
`UrlPath.apply_args(key_field=...)`: every occurrence of the `{key_field}`
placeholder in a parameter name is replaced by `kf` (parameter names in this
code base contain no other brace constructs). -/
def substKeyField (kf : List Char) : List Char → List Char
  | [] => []
  | c :: rest =>
    if keyFieldToken.isPrefixOf (c :: rest) then
      kf ++ substKeyField kf (rest.drop (keyFieldToken.length - 1))
    else c :: substKeyField kf rest
termination_by l => l.length
decreasing_by
  · simp only [List.length_cons, List.length_drop]
    omega
  · simp

/-- `UrlPath.apply_args(key_field=kf)`. -/
def applyArgs (p : UrlPath) (kf : List Char) : UrlPath :=
  ⟨p.nodes.map (fun n =>
    match n with
    | .param pp => .param ⟨substKeyField kf pp.name, pp.ty, pp.typeArgs⟩
    | .lit s => .lit s)⟩

def exceptIsOk {ε α : Type} : Except ε α → Bool
  | .ok _ => true
  | .error _ => false

deriving instance DecidableEq for Except

/-! ### Middleware ordering (`utils.sort_by_priority`, `MiddlewareList`)

A middleware object is summarised by its identity, its optional `priority`
attribute (`getattr(o, 'priority', 10)`) and which hook methods it defines
(`hasattr` probes in `MiddlewareList`).
-/

structure MiddlewareSpec where
  ident : Nat
  priority : Option Nat
  hasPreDispatch : Bool
  hasPostDispatch : Bool
deriving DecidableEq

def effectivePriority (m : MiddlewareSpec) : Nat := m.priority.getD 10

def insertByPriority (x : MiddlewareSpec) :
    List MiddlewareSpec → List MiddlewareSpec
  | [] => [x]
  | y :: ys =>
    if effectivePriority x ≤ effectivePriority y then x :: y :: ys
    else y :: insertByPriority x ys

/-- Stable ascending sort by priority: CPython `sorted(key=...)` is stable. -/
def stableSortByPriority (l : List MiddlewareSpec) : List MiddlewareSpec :=
  l.foldr insertByPriority []

/-- `sort_by_priority(iterable, reverse)`.  CPython implements
`sorted(reverse=True)` by reversing the list before and after a stable
ascending sort, so equal keys retain their original relative order. -/
def sortByPriority (l : List MiddlewareSpec) (reverse : Bool) : List MiddlewareSpec :=
  if reverse then (stableSortByPriority l.reverse).reverse
  else stableSortByPriority l

/-- `MiddlewareList.pre_dispatch`: sorted ascending, keeping only middleware
exposing a `pre_dispatch` hook. -/
def preDispatchHooks (l : List MiddlewareSpec) : List MiddlewareSpec :=
  (sortByPriority l false).filter (·.hasPreDispatch)

/-- `MiddlewareList.post_dispatch`: sorted with `reverse=True`, keeping only
middleware exposing a `post_dispatch` hook. -/
def postDispatchHooks (l : List MiddlewareSpec) : List MiddlewareSpec :=
  (sortByPriority l true).filter (·.hasPostDispatch)

/-! ### HTTP statuses and the `Error` resource (`resources.py`) -/

structure HTTPStatusV where
  value : Nat
  phrase : String
  description : String
deriving DecidableEq

def BAD_REQUEST : HTTPStatusV :=
  ⟨400, "Bad Request", "Bad request syntax or unsupported method"⟩

def NOT_IMPLEMENTED : HTTPStatusV :=
  ⟨501, "Not Implemented", "Server does not support this operation"⟩

def INTERNAL_SERVER_ERROR : HTTPStatusV :=
  ⟨500, "Internal Server Error", "Server got itself in trouble"⟩

/-- Python `value or default` for an optional string (`None` and `''` are
falsy). -/
def pyOrStr (v : Option String) (d : String) : String :=
  match v with
  | some s => if s = "" then d else s
  | none => d

/-- A field-name → messages map (`ValidationError.message_dict`). -/
abbrev MetaMap : Type := List (String × List String)

/-- The `Error` resource of `resources.py`. -/
structure ErrorRes where
  status : Nat
  code : Int
  message : String
  developer_message : Option String
  meta : Option MetaMap
deriving DecidableEq

/-- `Error.from_status(http_status, code_index, message, developer_message, meta)`. -/
def errorFromStatus (hs : HTTPStatusV) (codeIndex : Nat) (message : Option String)
    (developerMessage : Option String) (meta : Option MetaMap) : ErrorRes :=
  { status := hs.value
    code := (hs.value * 100 + codeIndex : Nat)
    message := pyOrStr message hs.description
    developer_message := some (pyOrStr developerMessage hs.description)
    meta := meta }

/-! ### `ApiInterfaceBase.handle_500` and `dispatch_operation` (`containers.py`)

The callback's behaviour inside the `try` block of `dispatch_operation` is
summarised by a `DispatchOutcome`: it either returns a resource, or raises
`ImmediateHttpResponse`, an (odin) `ValidationError`, `NotImplementedError`,
or some other exception (type `ε`, re-raised unchanged under debug).
A `handle_500` middleware hook either returns an optional replacement
resource or itself raises.
-/

inductive DispatchOutcome (ρ ε : Type) where
  | success (resource : ρ)
  | immediate (resource : ρ) (status : Nat) (headers : Option (List (String × String)))
  | validationFailure (messageDict : Option MetaMap) (text : String)
  | notImplemented
  | failure (exc : ε)

inductive DispatchBody (ρ : Type) where
  | resource (r : ρ)
  | error (e : ErrorRes)
deriving DecidableEq

/-- The generic fallback body produced by `ApiInterfaceBase.handle_500`. -/
def genericServerError : ErrorRes :=
  errorFromStatus INTERNAL_SERVER_ERROR 0 (some "An unhandled error has been caught.")
    none none

/-- `ApiInterfaceBase.handle_500`: offer each middleware `handle_500` hook the
exception; a truthy resource is returned, a hook raising aborts the loop; the
fallback is the generic 500 error resource. -/
def handle500 {ε : Type} (handlers : List (ε → Except ε (Option ErrorRes))) (exc : ε) :
    ErrorRes :=
  match handlers with
  | [] => genericServerError
  | h :: rest =>
    match h exc with
    | .ok (some r) => r
    | .ok none => handle500 rest exc
    | .error _ => genericServerError

/-- `ApiInterfaceBase.dispatch_operation` exception mapping (the interface
middleware `pre_dispatch`/`post_dispatch` hooks default to the empty
`MiddlewareList`; anything they or the operation raise is carried by the
`DispatchOutcome`). -/
def dispatchOperation {ρ ε : Type} (debugEnabled : Bool)
    (handlers : List (ε → Except ε (Option ErrorRes)))
    (outcome : DispatchOutcome ρ ε) :
    Except ε (DispatchBody ρ × Option Nat × Option (List (String × String))) :=
  match outcome with
  | .success r => .ok (.resource r, none, none)
  | .immediate r s h => .ok (.resource r, some s, h)
  | .validationFailure messageDict text =>
    let e :=
      match messageDict with
      | some md => errorFromStatus BAD_REQUEST 0 (some "Failed validation") none (some md)
      | none => errorFromStatus BAD_REQUEST 0 (some text) none none
    .ok (.error e, some e.status, none)
  | .notImplemented =>
    let e := errorFromStatus NOT_IMPLEMENTED 0
      (some "The method has not been implemented") none none
    .ok (.error e, some e.status, none)
  | .failure exc =>
    if debugEnabled then .error exc
    else
      let e := handle500 handlers exc
      .ok (.error e, some e.status, none)

/-! ### `create_response` (`helpers.py`) -/

structure Codec (α : Type) where
  contentType : String
  dumps : α → String

structure HttpResponse where
  status : Nat
  body : Option String
  headers : List (String × String)
deriving DecidableEq

/-- Python dict `headers[key] = value` on an association list. -/
def setHeader (hs : List (String × String)) (k v : String) : List (String × String) :=
  if hs.any (·.1 == k) then hs.map (fun p => if p.1 == k then (p.1, v) else p)
  else hs ++ [(k, v)]

def lookupHeader (hs : List (String × String)) (k : String) : Option String :=
  (hs.find? (·.1 == k)).map (·.2)

/-- Python `status or default` for an optional integer status (`None` and `0`
are falsy). -/
def pyOrNat (v : Option Nat) (d : Nat) : Nat :=
  match v with
  | some n => if n = 0 then d else n
  | none => d

/-- `create_response(request, body, status, headers)`: the branch test in the
source is `if body is None`, not a truthiness test. -/
def createResponse {α : Type} (codec : Codec α) (body : Option α)
    (status : Option Nat) (headers : Option (List (String × String))) : HttpResponse :=
  match body with
  | none => { status := pyOrNat status 204, body := none, headers := headers.getD [] }
  | some b =>
    { status := pyOrNat status 200
      body := some (codec.dumps b)
      headers := setHeader (headers.getD []) "Content-Type" codec.contentType }

/-! ### `WrappedListOperation.execute` (`decorators.py`) -/

/-- `utils.to_bool` applied to `request.GET.get('bare', False)`: an absent
parameter is the Python `False`; a present one is a string whose `.upper()`
(over ASCII) is tested against the truthy words. -/
def toBoolParam (v : Option String) : Bool :=
  match v with
  | some s =>
    decide ((⟨s.data.map Char.toUpper⟩ : String) ∈
      (["Y", "YES", "T", "TRUE", "1", "OK"] : List String))
  | none => false

/-- Offset handling: `int(request.GET.get('offset', default))` then clamp
negatives to zero. -/
def clampOffset (defaultOffset : Int) (param : Option Int) : Int :=
  let offset := param.getD defaultOffset
  if offset < 0 then 0 else offset

/-- Limit handling: clamp below to 1, and above to `max_limit` when that is
configured (truthy). -/
def clampLimit (defaultLimit : Int) (maxLimit : Option Int) (param : Option Int) : Int :=
  let limit := param.getD defaultLimit
  if limit < 1 then 1
  else
    match maxLimit with
    | some m => if m ≠ 0 ∧ limit > m then m else limit
    | none => limit

/-- What the wrapped callback returns: `None`, a plain result, or a 2-tuple
`(result, total_count)`. -/
inductive ListCbResult (α : Type) where
  | none
  | plain (items : α)
  | pair (items : α) (totalCount : Option Int)
deriving DecidableEq

/-- The `Listing` envelope (`resources.py`) as far as this operation fills it. -/
structure ListingRes (α : Type) where
  results : α
  limit : Int
  offset : Int
  totalCount : Option Int
deriving DecidableEq

inductive WrappedItems (α : Type) where
  | raw (items : α)
  | wrapped (l : ListingRes α)
deriving DecidableEq

/-- `WrappedListOperation.execute`: query parameters are pre-parsed integers /
the raw `bare` string; the callback receives the clamped `offset` and `limit`
injected into `path_args`. -/
def wrappedListExecute {α : Type} (defaultOffset defaultLimit : Int)
    (maxLimit : Option Int) (offsetParam limitParam : Option Int)
    (bareParam : Option String) (callback : Int → Int → ListCbResult α) :
    Option (WrappedItems α) :=
  let offset := clampOffset defaultOffset offsetParam
  let limit := clampLimit defaultLimit maxLimit limitParam
  let bare := toBoolParam bareParam
  match callback offset limit with
  | .none => none
  | .plain items =>
    some (if bare then .raw items else .wrapped ⟨items, limit, offset, none⟩)
  | .pair items totalCount =>
    some (if bare then .raw items else .wrapped ⟨items, limit, offset, totalCount⟩)

/-! ### `Operation.__eq__` (`decorators.py`) -/

inductive HttpMethod where
  | GET | PUT | POST | DELETE | OPTIONS | HEAD | PATCH | TRACE
deriving DecidableEq

/-- The slice of an `Operation` that `__eq__` can observe, together with the
callback identity it must ignore.  `keyFieldName` is the resolved
`key_field_name` used by the `path` lazy property. -/
structure Operation where
  urlPath : UrlPath
  methods : List HttpMethod
  callback : Nat
  keyFieldName : List Char
deriving DecidableEq

/-- `Operation.path`: `self.url_path.apply_args(key_field=self.key_field_name)`. -/
def operationPath (o : Operation) : UrlPath :=
  applyArgs o.urlPath o.keyFieldName

/-- `Operation.__eq__`: `all(getattr(self, a) == getattr(other, a) for a in ('path', 'methods'))`. -/
def operationEq (a b : Operation) : Bool :=
  decide (operationPath a = operationPath b) && decide (a.methods = b.methods)

/-! ### `ApiInterfaceBase.__init__` path-prefix handling (`containers.py`) -/

/-- `ApiInterfaceBase.__init__(name=..., path_prefix=...)` reduced to the
prefix computation: `name` defaults to `'api'`, `path_prefix` defaults to
`UrlPath('', name)`, and a non-absolute resulting prefix raises `ValueError`.
(A `UrlPath` object is always truthy, so the `ApiContainer` branch keeps a
supplied `UrlPath` unchanged.) -/
def apiInterfaceInit (nameOpt : Option (List Char)) (pathPrefixOpt : Option UrlPath) :
    Except String UrlPath :=
  let name := nameOpt.getD "api".data
  let pfx :=
    match pathPrefixOpt with
    | some p => p
    | none => ⟨[.lit [], .lit name]⟩
  if urlPathIsAbsolute pfx then .ok pfx
  else .error "Path prefix must be an absolute path"

/-! ### `Response` equality/hashing and set insertion (`data_structures.py`) -/

/-- A `Response.status` is either an `HTTPStatus` member (hashing to its
integer value, since `IntEnum` inherits `int.__hash__`) or the `'default'`
string used by `DefaultResponse`.  CPython string hashing is randomized; it is
modelled as a fixed value distinct from every (nonnegative) status code. -/
inductive RStatus where
  | code (value : Nat)
  | default
deriving DecidableEq

def rstatusHash : RStatus → Int
  | .code n => (n : Int)
  | .default => -3

structure Response where
  status : RStatus
  description : Option String
  resource : Option Nat
deriving DecidableEq

/-- `Response.__hash__`: `hash(self.status)`. -/
def responseHash (r : Response) : Int := rstatusHash r.status

/-- `Response.__eq__`: `hash(self) == hash(other)`. -/
def responseEq (a b : Response) : Bool := rstatusHash a.status == rstatusHash b.status

/-- `set.add` on a Python set of `Response` objects: a new element equal to an
existing one is not inserted and the set is unchanged. -/
def pySetAdd (s : List Response) (r : Response) : List Response :=
  if s.any (fun x => responseEq x r) then s else s ++ [r]

/-! ### URL signing (`signing.py`)

`MultiValueDict` is modelled as an insertion-ordered association list from
keys to value lists.  The digest and encoder are parameters in the source
(defaulting to HMAC-SHA256 and base32); they are abstracted as function
arguments here.  `urlencode`/`parse_qs` round-tripping of the query string is
modelled as the identity on the multi-dict, and `time()` is passed in as
`now`.
-/

abbrev MVDict : Type := List (String × List String)

def mvContains (d : MVDict) (k : String) : Bool := d.any (·.1 == k)

/-- `d[k] = v`: replace in place, or append a new key. -/
def mvSetItem (d : MVDict) (k v : String) : MVDict :=
  if mvContains d k then d.map (fun p => if p.1 == k then (p.1, [v]) else p)
  else d ++ [(k, [v])]

/-- `MultiValueDict.pop(key)`: the last value for the key (`none` models the
`KeyError` of a missing key), and the dict without that key. -/
def mvPop (d : MVDict) (k : String) : Option String × MVDict :=
  match d.find? (·.1 == k) with
  | some p => (p.2.getLast?, d.filter (fun q => !(q.1 == k)))
  | none => (none, d)

/-- Python string `<`: lexicographic comparison by code point. -/
def strLtChars : List Char → List Char → Bool
  | [], [] => false
  | [], _ :: _ => true
  | _ :: _, [] => false
  | a :: as, b :: bs =>
    if a.toNat < b.toNat then true
    else if b.toNat < a.toNat then false
    else strLtChars as bs

def strLt (a b : String) : Bool := strLtChars a.data b.data

def insertByKey (x : String × List String) : MVDict → MVDict
  | [] => [x]
  | y :: ys => if strLt x.1 y.1 = true ∨ x.1 = y.1 then x :: y :: ys else y :: insertByKey x ys

/-- `MultiValueDict.sorteditems(multi=True)`: keys in sorted order, each with
all its values in insertion order. -/
def mvSortedItemsMulti (d : MVDict) : List (String × String) :=
  (d.foldr insertByKey []).flatMap (fun p => p.2.map (fun v => (p.1, v)))

/-- `str.rstrip('=')`. -/
def rstripPad (s : String) : String :=
  ⟨(s.data.reverse.dropWhile (· == '=')).reverse⟩

/-- `sep.join(parts)`. -/
def strJoin (sep : String) : List String → String
  | [] => ""
  | [x] => x
  | x :: y :: xs => x ++ sep ++ strJoin sep (y :: xs)

/-- The message signed by `_generate_signature`:
`"%s?%s" % (url_path, '&'.join('%s=%s' % i for i in query_args.sorteditems(multi=True)))`. -/
def signingMessage (urlPath : String) (queryArgs : MVDict) : String :=
  urlPath ++ "?" ++
    strJoin "&" ((mvSortedItemsMulti queryArgs).map (fun p => p.1 ++ "=" ++ p.2))

/-- `_generate_signature(url_path, secret_key, query_args, digest, encoder)`:
the encoded HMAC with its base-32 padding stripped. -/
def generateSignature (hmacF : String → String → String) (encF : String → String)
    (urlPath secretKey : String) (queryArgs : MVDict) : String :=
  rstripPad (encF (hmacF secretKey (signingMessage urlPath queryArgs)))

/-- `sign_url_path`: add the `_` salt (the random `token()` is the `salt`
argument), optionally `expires = int(time() + expire_in)`, compute the
signature over the resulting arguments, and finally store it under
`signature`.  The result is the signed query dict (the source renders it back
into a URL string). -/
def signUrlPath (hmacF : String → String → String) (encF : String → String)
    (path secretKey : String) (args : MVDict) (salt : String)
    (expireIn : Option Int) (now : Int) : MVDict :=
  let a1 := mvSetItem args "_" salt
  let a2 :=
    match expireIn with
    | some e => mvSetItem a1 "expires" (toString (now + e))
    | none => a1
  mvSetItem a2 "signature" (generateSignature hmacF encF path secretKey a2)

/-- `verify_url_path(url_path, query_args, secret_key, salt_arg, max_expiry)`. -/
def verifyUrlPath (hmacF : String → String → String) (encF : String → String)
    (urlPath : String) (queryArgs : MVDict) (secretKey : String)
    (saltArg : Option String) (maxExpiry : Option Int) (now : Int) :
    Except String Bool :=
  let popped := mvPop queryArgs "signature"
  match popped.1 with
  | none => .error "Signature missing."
  | some supplied =>
    let args1 := popped.2
    if (match saltArg with
        | some sa => !(mvContains args1 sa)
        | none => false) then .error "No salt used."
    else if (match maxExpiry with
             | some _ => !(mvContains args1 "expires")
             | none => false) then .error "Expiry time is required."
    else
      let signature := generateSignature hmacF encF urlPath secretKey args1
      if signature ≠ supplied then .error "Signature not valid."
      else
        let poppedExp := mvPop args1 "expires"
        match poppedExp.1 with
        | none => .ok true
        | some ev =>
          match ev.toInt? with
          | none => .error "Invalid expiry value."
          | some expiryTime =>
            let delta := expiryTime - now
            if delta < 0 then .error "Signature has expired."
            else
              match maxExpiry with
              | some me =>
                if me ≠ 0 ∧ delta > me then .error "Expiry time out of range."
                else .ok true
              | none => .ok true

/-! ## Helper lemmas -/

theorem mem_insertByPriority {x y : MiddlewareSpec} {l : List MiddlewareSpec}
    (h : y ∈ insertByPriority x l) : y = x ∨ y ∈ l := by
  induction l with
  | nil => simpa [insertByPriority] using h
  | cons z zs ih =>
    by_cases hc : effectivePriority x ≤ effectivePriority z
    · simpa [insertByPriority, hc, or_assoc] using h
    · simp only [insertByPriority, hc, if_false, List.mem_cons] at h
      rcases h with h | h
      · exact Or.inr (by simp [h])
      · rcases ih h with h' | h'
        · exact Or.inl h'
        · exact Or.inr (List.mem_cons_of_mem _ h')

theorem pairwise_insertByPriority {x : MiddlewareSpec} {l : List MiddlewareSpec}
    (h : l.Pairwise (fun a b => effectivePriority a ≤ effectivePriority b)) :
    (insertByPriority x l).Pairwise (fun a b => effectivePriority a ≤ effectivePriority b) := by
  induction l with
  | nil => simp [insertByPriority]
  | cons z zs ih =>
    rcases List.pairwise_cons.mp h with ⟨hz, hzs⟩
    by_cases hc : effectivePriority x ≤ effectivePriority z
    · simp only [insertByPriority, hc, if_true]
      refine List.pairwise_cons.mpr ⟨?_, h⟩
      intro a ha
      rcases List.mem_cons.mp ha with rfl | ha
      · exact hc
      · exact le_trans hc (hz a ha)
    · simp only [insertByPriority, hc, if_false]
      refine List.pairwise_cons.mpr ⟨?_, ih hzs⟩
      intro a ha
      rcases mem_insertByPriority ha with rfl | ha
      · omega
      · exact hz a ha

theorem pairwise_stableSortByPriority (l : List MiddlewareSpec) :
    (stableSortByPriority l).Pairwise (fun a b => effectivePriority a ≤ effectivePriority b) := by
  induction l with
  | nil => simp [stableSortByPriority]
  | cons x xs ih => exact pairwise_insertByPriority ih

/-! ## C1 -/

/-- C1: in `dispatch_operation`, a validation error with a field map yields a
400 error resource with the map in `meta`; one without yields 400 with the
stringified message; `NotImplementedError` yields 501; any other exception
with `debug_enabled=False` yields the generic 500 body, and with
`debug_enabled=True` is re-raised unchanged. -/
theorem c1_dispatch_exception_mapping :
    (∀ (ρ ε : Type) (text : String) (md : MetaMap),
      dispatchOperation (ρ := ρ) (ε := ε) false [] (.validationFailure (some md) text) =
        .ok (.error { status := 400, code := 40000, message := "Failed validation",
                      developer_message := some "Bad request syntax or unsupported method",
                      meta := some md }, some 400, none))
  ∧ (∀ (ρ ε : Type) (text : String),
      dispatchOperation (ρ := ρ) (ε := ε) false [] (.validationFailure none text) =
        .ok (.error { status := 400, code := 40000,
                      message := if text = "" then "Bad request syntax or unsupported method"
                                 else text,
                      developer_message := some "Bad request syntax or unsupported method",
                      meta := none }, some 400, none))
  ∧ (∀ (ρ ε : Type) (debug : Bool) (handlers : List (ε → Except ε (Option ErrorRes))),
      dispatchOperation (ρ := ρ) debug handlers .notImplemented =
        .ok (.error { status := 501, code := 50100,
                      message := "The method has not been implemented",
                      developer_message := some "Server does not support this operation",
                      meta := none }, some 501, none))
  ∧ (∀ (ρ ε : Type) (exc : ε),
      dispatchOperation (ρ := ρ) false [] (.failure exc) =
        .ok (.error { status := 500, code := 50000,
                      message := "An unhandled error has been caught.",
                      developer_message := some "Server got itself in trouble",
                      meta := none }, some 500, none))
  ∧ (∀ (ρ ε : Type) (exc : ε),
      dispatchOperation (ρ := ρ) true [] (.failure exc) = .error exc) := by
  refine ⟨?_, ?_, ?_, ?_, ?_⟩ <;> intros <;> rfl

/-! ## C2 -/

def mwFirst : MiddlewareSpec := ⟨1, some 5, true, true⟩

def mwSecond : MiddlewareSpec := ⟨2, none, true, true⟩

def mwThird : MiddlewareSpec := ⟨3, none, true, true⟩

/-- C2 counterexample: for registration order `[priority 5, default, default]`
the `pre_dispatch` order is first, second, third as claimed, but
`post_dispatch` is NOT the exact reverse `[third, second, first]` — Python's
`sorted(reverse=True)` keeps equal keys in registration order. -/
theorem c2_counterexample :
    preDispatchHooks [mwFirst, mwSecond, mwThird] = [mwFirst, mwSecond, mwThird] ∧
    postDispatchHooks [mwFirst, mwSecond, mwThird] ≠ [mwThird, mwSecond, mwFirst] := by
  decide

/-- C2 amended: `pre_dispatch` hooks run in ascending priority order (stable
for ties in registration order) and `post_dispatch` hooks run in descending
priority order with ties again in registration order; for priorities
`[5, 10, 10]` the post order is second, third, first. -/
theorem c2_amended_middleware_order :
    preDispatchHooks [mwFirst, mwSecond, mwThird] = [mwFirst, mwSecond, mwThird]
  ∧ postDispatchHooks [mwFirst, mwSecond, mwThird] = [mwSecond, mwThird, mwFirst]
  ∧ (∀ l : List MiddlewareSpec,
      (preDispatchHooks l).Pairwise (fun a b => effectivePriority a ≤ effectivePriority b))
  ∧ (∀ l : List MiddlewareSpec,
      (postDispatchHooks l).Pairwise (fun a b => effectivePriority b ≤ effectivePriority a)) := by
  refine ⟨by decide, by decide, ?_, ?_⟩
  · intro l
    exact (pairwise_stableSortByPriority l).filter _
  · intro l
    refine List.Pairwise.filter _ ?_
    simp only [sortByPriority, if_true]
    exact List.pairwise_reverse.mpr (pairwise_stableSortByPriority l.reverse)

/-! ## C6 -/

/-- C6: two `Operation`s are equal exactly when their effective URL paths and
methods agree; the callback identity plays no role. -/
theorem c6_operation_equality :
    (∀ a b : Operation, operationEq a b = true ↔
      (operationPath a = operationPath b ∧ a.methods = b.methods))
  ∧ (∀ (up : UrlPath) (ms : List HttpMethod) (kf : List Char) (c₁ c₂ : Nat),
      operationEq ⟨up, ms, c₁, kf⟩ ⟨up, ms, c₂, kf⟩ = true) := by
  constructor
  · intro a b
    simp [operationEq]
  · intro up ms kf c₁ c₂
    simp only [operationEq, Bool.and_eq_true, decide_eq_true_eq]
    exact ⟨rfl, trivial⟩

/-! ## C9 -/

/-- C9: constructing an `ApiInterfaceBase` whose resulting path prefix is not
absolute raises `ValueError`; all defaults give the absolute prefix `/api`. -/
theorem c9_api_interface_prefix :
    (∀ (n : Option (List Char)) (p : UrlPath),
      apiInterfaceInit n (some p) =
        if urlPathIsAbsolute p then .ok p
        else .error "Path prefix must be an absolute path")
  ∧ apiInterfaceInit none none = .ok ⟨[.lit [], .lit "api".data]⟩
  ∧ (∀ name : List Char, apiInterfaceInit (some name) none = .ok ⟨[.lit [], .lit name]⟩)
  ∧ urlPathIsAbsolute ⟨[.lit [], .lit "api".data]⟩ = true
  ∧ urlPathFormat ⟨[.lit [], .lit "api".data]⟩ = "/api".data := by
  refine ⟨fun n p => rfl, by decide, fun name => rfl, by decide, by decide⟩

/-! ## C10 -/

/-- C10: `Response` equality and hashing depend only on `status`; adding a
`Response` whose status is already present leaves the set unchanged, so a set
of responses holds at most one entry per status. -/
theorem c10_response_status_identity :
    (∀ (st : RStatus) (d₁ d₂ : Option String) (r₁ r₂ : Option Nat),
      responseEq ⟨st, d₁, r₁⟩ ⟨st, d₂, r₂⟩ = true ∧
      responseHash ⟨st, d₁, r₁⟩ = responseHash ⟨st, d₂, r₂⟩)
  ∧ (∀ (s : List Response) (r x : Response), x ∈ s → x.status = r.status →
      pySetAdd s r = s)
  ∧ (∀ (s : List Response) (r : Response),
      s.Pairwise (fun a b => a.status ≠ b.status) →
      (pySetAdd s r).Pairwise (fun a b => a.status ≠ b.status)) := by
  refine ⟨?_, ?_, ?_⟩
  · intro st d₁ d₂ r₁ r₂
    exact ⟨by simp [responseEq], rfl⟩
  · intro s r x hx hst
    have : s.any (fun y => responseEq y r) = true :=
      List.any_eq_true.mpr ⟨x, hx, by simp [responseEq, hst]⟩
    simp [pySetAdd, this]
  · intro s r hp
    by_cases h : s.any (fun y => responseEq y r) = true
    · simpa [pySetAdd, h] using hp
    · have h' := List.any_eq_false.mp (Bool.eq_false_iff.mpr h)
      simp only [pySetAdd, h, if_false]
      refine List.pairwise_append.mpr ⟨hp, List.pairwise_singleton _ _, ?_⟩
      intro a ha b hb
      have hb' : b = r := by simpa using hb
      subst hb'
      intro hab
      exact h' a ha (by simp [responseEq, hab])

/-- Witness for C10: adding a 200 response with a different description and
resource to a set already holding a 200 response leaves it unchanged. -/
theorem c10_witness :
    pySetAdd [⟨.code 200, some "a", none⟩] ⟨.code 200, some "b", some 7⟩ =
      [⟨.code 200, some "a", none⟩] :=
  c10_response_status_identity.2.1 _ _ ⟨.code 200, some "a", none⟩ (by simp) rfl

/-! ## C3 -/

/-- C3: the listing wrapper clamps a negative offset to 0 and clamps the limit
into `[1, max_limit]`; `bare=true` returns the raw result, otherwise the
result is wrapped in a `Listing` envelope carrying the clamped offset/limit
and the total count from a 2-tuple callback result. -/
theorem c3_listing_wrapper :
    (∀ d o : Int, clampOffset d (some o) = max 0 o)
  ∧ (∀ d m l : Int, 1 ≤ m → clampLimit d (some m) (some l) = min m (max 1 l))
  ∧ (∀ (α : Type) (dO dL : Int) (mL oP lP : Option Int) (bareS : String)
       (cb : Int → Int → ListCbResult α) (items : α),
       toBoolParam (some bareS) = true →
       cb (clampOffset dO oP) (clampLimit dL mL lP) = .plain items →
       wrappedListExecute dO dL mL oP lP (some bareS) cb = some (.raw items))
  ∧ (∀ (α : Type) (dO dL : Int) (mL oP lP : Option Int) (bareP : Option String)
       (cb : Int → Int → ListCbResult α) (items : α) (totalCount : Option Int),
       toBoolParam bareP = false →
       cb (clampOffset dO oP) (clampLimit dL mL lP) = .pair items totalCount →
       wrappedListExecute dO dL mL oP lP bareP cb =
         some (.wrapped ⟨items, clampLimit dL mL lP, clampOffset dO oP, totalCount⟩))
  ∧ (∀ (α : Type) (dO dL : Int) (mL oP lP : Option Int) (bareP : Option String)
       (cb : Int → Int → ListCbResult α) (items : α),
       toBoolParam bareP = false →
       cb (clampOffset dO oP) (clampLimit dL mL lP) = .plain items →
       wrappedListExecute dO dL mL oP lP bareP cb =
         some (.wrapped ⟨items, clampLimit dL mL lP, clampOffset dO oP, none⟩)) := by
  refine ⟨?_, ?_, ?_, ?_, ?_⟩
  · intro d o
    simp only [clampOffset, Option.getD_some]
    split <;> omega
  · intro d m l hm
    simp only [clampLimit, Option.getD_some]
    split_ifs with h1 h2
    · omega
    · omega
    · rw [not_and_or] at h2
      omega
  · intro α dO dL mL oP lP bareS cb items hbare hcb
    simp [wrappedListExecute, hcb, hbare]
  · intro α dO dL mL oP lP bareP cb items totalCount hbare hcb
    simp [wrappedListExecute, hcb, hbare]
  · intro α dO dL mL oP lP bareP cb items hbare hcb
    simp [wrappedListExecute, hcb, hbare]

/-- Witness for C3: `offset=-5`, `limit=100` with `max_limit=20` produces a
`Listing` with offset 0, limit 20 and the callback's total count; `bare=yes`
returns the raw list. -/
theorem c3_witness :
    clampLimit 50 (some 20) (some 100) = min 20 (max 1 100) ∧
    clampOffset 0 (some (-5)) = max 0 (-5) ∧
    wrappedListExecute 0 50 (some 20) (some (-5)) (some 100) none
        (fun o l => ListCbResult.pair [o, l] (some 7)) =
      some (.wrapped ⟨[clampOffset 0 (some (-5)), clampLimit 50 (some 20) (some 100)],
        clampLimit 50 (some 20) (some 100), clampOffset 0 (some (-5)), some 7⟩) ∧
    wrappedListExecute 0 50 none none (some 0) (some "yes")
        (fun o l => ListCbResult.plain [o, l]) =
      some (.raw [clampOffset 0 none, clampLimit 50 none (some 0)]) :=
  ⟨c3_listing_wrapper.1 50 100 ▸ c3_listing_wrapper.2.1 50 20 100 (by decide),
   c3_listing_wrapper.1 0 (-5),
   c3_listing_wrapper.2.2.2.1 (List Int) 0 50 (some 20) (some (-5)) (some 100) none
     (fun o l => ListCbResult.pair [o, l] (some 7)) _ (some 7) rfl rfl,
   c3_listing_wrapper.2.2.1 (List Int) 0 50 none none (some 0) "yes"
     (fun o l => ListCbResult.plain [o, l]) _ (by decide) rfl⟩

/-! ## C4 -/

/-- C4 counterexample: for the absolute path `b = /x`, the claim asserts
`b + a` never raises for any `a`; taking `a = b` (also absolute) the addition
raises. -/
theorem c4_counterexample :
    urlPathIsAbsolute ⟨[.lit [], .lit "x".data]⟩ = true ∧
    exceptIsOk (urlPathAdd ⟨[.lit [], .lit "x".data]⟩ ⟨[.lit [], .lit "x".data]⟩) = false := by
  decide

/-- C4 amended: for every absolute `b`, `a + b` raises for every `a`, and
`b + a` succeeds provided `a` is not itself absolute. -/
theorem c4_amended_absolute_concat (a b : UrlPath) (hb : urlPathIsAbsolute b = true) :
    (∃ msg, urlPathAdd a b = .error msg) ∧
    (urlPathIsAbsolute a = false → urlPathAdd b a = .ok ⟨b.nodes ++ a.nodes⟩) := by
  constructor
  · match hb' : b.nodes with
    | [] => simp [urlPathIsAbsolute, hb'] at hb
    | .param p :: rest => simp [urlPathIsAbsolute, hb'] at hb
    | .lit (c :: cs) :: rest => simp [urlPathIsAbsolute, hb'] at hb
    | .lit [] :: rest =>
      exact ⟨"Right hand argument cannot be absolute.",
        by simp [urlPathAdd, hb', addNodes, Except.map]⟩
  · intro ha
    match ha' : a.nodes with
    | [] => simp [urlPathAdd, ha', addNodes, Except.map]
    | .param p :: rest => simp [urlPathAdd, ha', addNodes, Except.map]
    | .lit (c :: cs) :: rest => simp [urlPathAdd, ha', addNodes, Except.map]
    | .lit [] :: rest => simp [urlPathIsAbsolute, ha'] at ha

/-- Witness for C4: with the relative path `a` and absolute path `b = /y`,
`a + b` raises and `b + a` succeeds. -/
theorem c4_witness :
    (∃ msg, urlPathAdd ⟨[.lit "a".data]⟩ ⟨[.lit [], .lit "y".data]⟩ = .error msg) ∧
    urlPathAdd ⟨[.lit [], .lit "y".data]⟩ ⟨[.lit "a".data]⟩ =
      .ok ⟨[UNode.lit [], .lit "y".data] ++ [.lit "a".data]⟩ :=
  ⟨(c4_amended_absolute_concat ⟨[.lit "a".data]⟩ ⟨[.lit [], .lit "y".data]⟩ (by decide)).1,
   (c4_amended_absolute_concat ⟨[.lit "a".data]⟩ ⟨[.lit [], .lit "y".data]⟩ (by decide)).2
     (by decide)⟩

/-! ## C7 -/

theorem lookupHeader_append_self (k v : String) :
    ∀ hs : List (String × String), (∀ x ∈ hs, (x.1 == k) = false) →
      lookupHeader (hs ++ [(k, v)]) k = some v := by
  intro hs
  induction hs with
  | nil =>
    intro _
    simp [lookupHeader, List.find?]
  | cons p ps ih =>
    intro h
    have hp : ¬ (p.1 == k) = true := by simp [h p (by simp)]
    have h' : ∀ x ∈ ps, (x.1 == k) = false := fun x hx => h x (by simp [hx])
    have hstep : List.find? (fun x : String × String => x.1 == k) (p :: (ps ++ [(k, v)])) =
        List.find? (fun x : String × String => x.1 == k) (ps ++ [(k, v)]) :=
      List.find?_cons_of_neg _ hp
    simp only [List.cons_append, lookupHeader, hstep]
    exact ih h'

theorem lookupHeader_map_set (k v : String) :
    ∀ hs : List (String × String), (∃ x ∈ hs, (x.1 == k) = true) →
      lookupHeader (hs.map (fun p => if p.1 == k then (p.1, v) else p)) k = some v := by
  intro hs
  induction hs with
  | nil =>
    rintro ⟨x, hx, _⟩
    simp at hx
  | cons p ps ih =>
    rintro ⟨x, hx, hxk⟩
    by_cases hp : (p.1 == k) = true
    · have hstep : List.find? (fun y : String × String => y.1 == k)
          ((p.1, v) :: ps.map (fun q => if q.1 == k then (q.1, v) else q)) = some (p.1, v) :=
        List.find?_cons_of_pos _ hp
      simp only [List.map_cons, if_pos hp, lookupHeader, hstep]
      rfl
    · have hx' : x ∈ ps := by
        rcases List.mem_cons.mp hx with rfl | h
        · exact absurd hxk hp
        · exact h
      have hstep : List.find? (fun y : String × String => y.1 == k)
          (p :: ps.map (fun q => if q.1 == k then (q.1, v) else q)) =
          List.find? (fun y : String × String => y.1 == k)
            (ps.map (fun q => if q.1 == k then (q.1, v) else q)) :=
        List.find?_cons_of_neg _ hp
      simp only [List.map_cons, if_neg hp, lookupHeader, hstep]
      exact ih ⟨x, hx', hxk⟩

theorem lookupHeader_setHeader (hs : List (String × String)) (k v : String) :
    lookupHeader (setHeader hs k v) k = some v := by
  by_cases h : hs.any (·.1 == k) = true
  · simp only [setHeader, h, if_true]
    exact lookupHeader_map_set k v hs (by simpa using List.any_eq_true.mp h)
  · simp only [setHeader, h, if_false]
    exact lookupHeader_append_self k v hs
      (fun x hx => by simpa using (List.any_eq_false.mp (Bool.eq_false_iff.mpr h)) x hx)

def exListCodec : Codec (List Nat) := ⟨"application/json", fun _ => "[]"⟩

/-- C7 counterexample: a falsy but non-`None` body (the empty list) is NOT
turned into a 204 response — `create_response` tests `body is None` and
serializes the empty list with status 200. -/
theorem c7_counterexample :
    (createResponse exListCodec (some ([] : List Nat)) none none).status = 200 ∧
    ¬ (createResponse exListCodec (some ([] : List Nat)) none none).status = 204 := by
  exact ⟨rfl, by decide⟩

/-- C7 amended: only a `None` body yields 204 No Content; any non-`None` body
(including falsy ones such as an empty list or empty string) is serialized via
the response codec, returned with the given status (default 200), and the
`Content-Type` header is set to the codec's content type. -/
theorem c7_amended_create_response :
    (∀ (α : Type) (codec : Codec α) (headers : Option (List (String × String))),
      createResponse codec none none headers =
        { status := 204, body := none, headers := headers.getD [] })
  ∧ (∀ (α : Type) (codec : Codec α) (b : α) (status : Option Nat)
       (headers : Option (List (String × String))),
      (createResponse codec (some b) status headers).body = some (codec.dumps b) ∧
      lookupHeader (createResponse codec (some b) status headers).headers "Content-Type" =
        some codec.contentType)
  ∧ (∀ (α : Type) (codec : Codec α) (b : α) (headers : Option (List (String × String))),
      (createResponse codec (some b) none headers).status = 200)
  ∧ (∀ (α : Type) (codec : Codec α) (b : α) (s : Nat)
       (headers : Option (List (String × String))), s ≠ 0 →
      (createResponse codec (some b) (some s) headers).status = s) := by
  refine ⟨fun α codec headers => rfl, ?_, fun α codec b headers => rfl, ?_⟩
  · intro α codec b status headers
    exact ⟨rfl, lookupHeader_setHeader _ _ _⟩
  · intro α codec b s headers hs
    simp [createResponse, pyOrNat, hs]

/-- Witness for C7: a nonempty body with explicit status 201 keeps that
status. -/
theorem c7_witness :
    (createResponse exListCodec (some [1]) (some 201) none).status = 201 :=
  c7_amended_create_response.2.2.2 (List Nat) exListCodec [1] 201 none (by decide)

/-! ## C8 -/

theorem any_key_map_set (kSet kQ v : String) :
    ∀ d : MVDict,
      ((d.map (fun p => if p.1 == kSet then (p.1, [v]) else p)).any (·.1 == kQ)) =
        d.any (·.1 == kQ) := by
  intro d
  induction d with
  | nil => rfl
  | cons p ps ih =>
    simp only [List.map_cons, List.any_cons, ih]
    by_cases hp : (p.1 == kSet) = true
    · simp [hp]
    · simp [hp]

theorem mvContains_setItem_self (d : MVDict) (k v : String) :
    mvContains (mvSetItem d k v) k = true := by
  simp only [mvSetItem, mvContains]
  by_cases h : (d.any fun x => x.1 == k) = true
  · rw [if_pos h]
    rcases List.any_eq_true.mp h with ⟨x, hx, hxk⟩
    refine List.any_eq_true.mpr ⟨(x.1, [v]), List.mem_map.mpr ⟨x, hx, ?_⟩, hxk⟩
    simp [show (x.1 == k) = true from hxk]
  · rw [if_neg h]
    exact List.any_eq_true.mpr ⟨(k, [v]), by simp, by simp⟩

theorem mvContains_setItem_other {kSet kQ : String} (hne : kSet ≠ kQ) (d : MVDict)
    (v : String) : mvContains (mvSetItem d kSet v) kQ = mvContains d kQ := by
  simp only [mvSetItem, mvContains]
  by_cases h : (d.any fun x => x.1 == kSet) = true
  · rw [if_pos h]
    exact any_key_map_set kSet kQ v d
  · rw [if_neg h, List.any_append]
    simp [List.any_cons, show (kSet == kQ) = false by simpa using hne]

theorem mvSetItem_of_not_contains {d : MVDict} {k : String} (v : String)
    (h : mvContains d k = false) : mvSetItem d k v = d ++ [(k, [v])] := by
  simp [mvSetItem, h]

theorem mvPop_of_not_contains {d : MVDict} {k : String} (h : mvContains d k = false) :
    mvPop d k = (none, d) := by
  have h' : ∀ x ∈ d, ((x.1 == k) : Bool) = false := by
    intro x hx
    exact Bool.eq_false_iff.mpr (fun hc =>
      (Bool.eq_false_iff.mp h) (List.any_eq_true.mpr ⟨x, hx, hc⟩))
  have hfind : List.find? (fun q : String × List String => q.1 == k) d = none :=
    List.find?_eq_none.mpr (fun x hx => by simp [h' x hx])
  simp [mvPop, hfind]

theorem mvPop_append_single {d : MVDict} {k : String} (v : List String)
    (h : mvContains d k = false) : mvPop (d ++ [(k, v)]) k = (v.getLast?, d) := by
  have h' : ∀ x ∈ d, ((x.1 == k) : Bool) = false := by
    intro x hx
    exact Bool.eq_false_iff.mpr (fun hc =>
      (Bool.eq_false_iff.mp h) (List.any_eq_true.mpr ⟨x, hx, hc⟩))
  have hfind1 : List.find? (fun q : String × List String => q.1 == k) d = none :=
    List.find?_eq_none.mpr (fun x hx => by simp [h' x hx])
  have hfind : List.find? (fun q : String × List String => q.1 == k) (d ++ [(k, v)]) =
      some (k, v) := by
    rw [List.find?_append, hfind1]
    simp [List.find?]
  have hfil : (d ++ [(k, v)]).filter (fun q => !(q.1 == k)) = d := by
    rw [List.filter_append]
    have h1 : d.filter (fun q => !(q.1 == k)) = d :=
      List.filter_eq_self.mpr (fun a ha => by simp [h' a ha])
    have h2 : [(k, v)].filter (fun q : String × List String => !(q.1 == k)) = [] := by
      simp [List.filter]
    rw [h1, h2, List.append_nil]
  simp [mvPop, hfind, hfil]

/-- C8 counterexample: the signed payload does NOT exclude `expires` — the
message handed to the HMAC contains the `expires` argument, and the signature
changes when `expires` is removed (digest and encoder instantiated with
injective stand-ins). -/
theorem c8_counterexample :
    signingMessage "/p" [("_", ["t"]), ("expires", ["5"])] = "/p?_=t&expires=5" ∧
    generateSignature (fun _ m => m) id "/p" "k" [("_", ["t"]), ("expires", ["5"])] ≠
      generateSignature (fun _ m => m) id "/p" "k" [("_", ["t"])] := by
  constructor
  · decide
  · decide

/-- C8 amended: the signature is the encoded HMAC of
`"{path}?{sorted-query-args}"` where only the `signature` argument is excluded
from the signed payload (`expires`, when present, is signed as well);
verification with the same secret succeeds on an untampered signed URL, and
fails with a signing error when the signature is absent or does not match. -/
theorem c8_amended_sign_verify :
    (∀ (hm : String → String → String) (enc : String → String)
       (path secret salt : String) (args : MVDict) (now : Int),
       mvContains args "signature" = false →
       mvContains args "expires" = false →
       verifyUrlPath hm enc path (signUrlPath hm enc path secret args salt none now)
         secret (some "_") none now = .ok true)
  ∧ (∀ (hm : String → String → String) (enc : String → String)
       (path secret : String) (args : MVDict) (maxExpiry : Option Int) (now : Int),
       mvContains args "signature" = false →
       verifyUrlPath hm enc path args secret (some "_") maxExpiry now =
         .error "Signature missing.")
  ∧ (∀ (hm : String → String → String) (enc : String → String)
       (path secret supplied : String) (args1 : MVDict) (now : Int),
       mvContains args1 "signature" = false →
       mvContains args1 "_" = true →
       supplied ≠ generateSignature hm enc path secret args1 →
       verifyUrlPath hm enc path (mvSetItem args1 "signature" supplied)
         secret (some "_") none now = .error "Signature not valid.") := by
  refine ⟨?_, ?_, ?_⟩
  · intro hm enc path secret salt args now hsig hexp
    set a1 := mvSetItem args "_" salt with ha1
    have h1 : mvContains a1 "signature" = false := by
      rw [ha1, mvContains_setItem_other (by decide)]
      exact hsig
    have h2 : mvContains a1 "_" = true := mvContains_setItem_self _ _ _
    have h3 : mvContains a1 "expires" = false := by
      rw [ha1, mvContains_setItem_other (by decide)]
      exact hexp
    have hsign : signUrlPath hm enc path secret args salt none now =
        a1 ++ [("signature", [generateSignature hm enc path secret a1])] := by
      rw [signUrlPath]
      exact mvSetItem_of_not_contains _ h1
    rw [hsign]
    rw [verifyUrlPath]
    rw [mvPop_append_single _ h1]
    simp only [List.getLast?_singleton, h2, Bool.not_true]
    rw [mvPop_of_not_contains h3]
    simp
  · intro hm enc path secret args maxExpiry now hsig
    rw [verifyUrlPath, mvPop_of_not_contains hsig]
  · intro hm enc path secret supplied args1 now hsig hsalt hne
    rw [verifyUrlPath, mvSetItem_of_not_contains _ hsig, mvPop_append_single _ hsig]
    simp only [List.getLast?_singleton, hsalt, Bool.not_true]
    rw [if_pos (Ne.symm hne)]
    simp

/-- Witness for C8: a concrete sign/verify round trip succeeds, a missing
signature raises, and a tampered signature raises. -/
theorem c8_witness :
    verifyUrlPath (fun key m => key ++ m) id "/p"
        (signUrlPath (fun key m => key ++ m) id "/p" "sec" [("a", ["1"])] "tok" none 0)
        "sec" (some "_") none 0 = .ok true ∧
    verifyUrlPath (fun key m => key ++ m) id "/p" [("a", ["1"])] "sec" (some "_") none 0 =
      .error "Signature missing." ∧
    verifyUrlPath (fun key m => key ++ m) id "/p"
        (mvSetItem [("_", ["tok"])] "signature" "bogus") "sec" (some "_") none 0 =
      .error "Signature not valid." :=
  ⟨c8_amended_sign_verify.1 (fun key m => key ++ m) id "/p" "sec" "tok" [("a", ["1"])] 0
     (by decide) (by decide),
   c8_amended_sign_verify.2.1 (fun key m => key ++ m) id "/p" "sec" [("a", ["1"])] none 0
     (by decide),
   c8_amended_sign_verify.2.2 (fun key m => key ++ m) id "/p" "sec" "bogus" [("_", ["tok"])] 0
     (by decide) (by decide) (by decide)⟩

/-! ## C5 -/

def wfName (s : List Char) : Bool :=
  match s with
  | [] => false
  | a :: t => a.isAlpha && t.all isWordChar

def wfParam (p : PathParam) : Bool :=
  wfName p.name && p.ty.isSome &&
    (match p.typeArgs with
     | none => true
     | some a => !a.isEmpty && a.all isArgChar)

def wfNode : UNode → Bool
  | .lit s => !s.contains '/' && !s.contains lbrace && !s.contains rbrace
  | .param p => wfParam p

/-- The domain on which the parse/format round trip holds: every literal node
free of `/` and braces, every parameter node with a regex-conformant name, a
type, and valid type arguments, and no trailing empty literal (which
`rstrip('/')` in `parse` would drop). -/
def wfPath (p : UrlPath) : Bool :=
  p.nodes.all wfNode &&
    (p.nodes.isEmpty || p.nodes == [UNode.lit []] ||
      !(p.nodes.getLast? == some (UNode.lit [])))

theorem tyOfName_tyName : ∀ t : Ty, tyOfName (tyName t) = some t := by
  intro t
  cases t <;> decide

theorem tyName_wf : ∀ t : Ty, wfName (tyName t) = true := by
  intro t
  cases t <;> decide

theorem colon_not_word : isWordChar ':' = false := by decide

theorem takeWhile_all {p : Char → Bool} {l : List Char} (h : l.all p = true) :
    l.takeWhile p = l := by
  induction l with
  | nil => rfl
  | cons x xs ih =>
    simp only [List.all_cons, Bool.and_eq_true] at h
    simp [List.takeWhile_cons, h.1, ih h.2]

theorem dropWhile_all {p : Char → Bool} {l : List Char} (h : l.all p = true) :
    l.dropWhile p = [] := by
  induction l with
  | nil => rfl
  | cons x xs ih =>
    simp only [List.all_cons, Bool.and_eq_true] at h
    simp [List.dropWhile_cons, h.1, ih h.2]

theorem takeWhile_word_colon (nt r : List Char) (hnt : nt.all isWordChar = true) :
    (nt ++ ':' :: r).takeWhile isWordChar = nt ∧
    (nt ++ ':' :: r).dropWhile isWordChar = ':' :: r := by
  have hpos : ∀ x ∈ nt, isWordChar x := fun x hx => List.all_eq_true.mp hnt x hx
  constructor
  · rw [List.takeWhile_append_of_pos hpos]
    simp [List.takeWhile_cons, colon_not_word]
  · rw [List.dropWhile_append_of_pos hpos]
    simp [List.dropWhile_cons, colon_not_word]

theorem matchInterior_name {a : Char} {nt : List Char} (ha : a.isAlpha = true)
    (hnt : nt.all isWordChar = true) :
    matchInterior (a :: nt) = some (a :: nt, none, none) := by
  have ht := takeWhile_all hnt
  have hd := dropWhile_all hnt
  simp [matchInterior, ha, ht, hd]

theorem matchInterior_type {a b : Char} {nt tt : List Char} (ha : a.isAlpha = true)
    (hnt : nt.all isWordChar = true) (hb : b.isAlpha = true)
    (htt : tt.all isWordChar = true) :
    matchInterior (a :: (nt ++ ':' :: b :: tt)) = some (a :: nt, some (b :: tt), none) := by
  obtain ⟨ht1, hd1⟩ := takeWhile_word_colon nt (b :: tt) hnt
  have ht2 := takeWhile_all htt
  have hd2 := dropWhile_all htt
  simp [matchInterior, ha, ht1, hd1, hb, ht2, hd2]

theorem matchInterior_type_args {a b : Char} {nt tt ar : List Char} (ha : a.isAlpha = true)
    (hnt : nt.all isWordChar = true) (hb : b.isAlpha = true)
    (htt : tt.all isWordChar = true) (harne : ar.isEmpty = false)
    (harg : ar.all isArgChar = true) :
    matchInterior (a :: (nt ++ ':' :: b :: (tt ++ ':' :: ar))) =
      some (a :: nt, some (b :: tt), some ar) := by
  obtain ⟨ht1, hd1⟩ := takeWhile_word_colon nt (b :: (tt ++ ':' :: ar)) hnt
  obtain ⟨ht2, hd2⟩ := takeWhile_word_colon tt ar htt
  simp [matchInterior, ha, ht1, hd1, hb, ht2, hd2, tryArgGroup, harne, harg]

theorem matchPathNode_wrap (int : List Char) :
    matchPathNode (lbrace :: (int ++ [rbrace])) = matchInterior int := by
  simp [matchPathNode, List.getLast?_concat, List.dropLast_concat]

theorem not_mem_of_all {p : Char → Bool} {c : Char} {l : List Char}
    (hall : l.all p = true) (hc : p c = false) : c ∉ l := by
  intro hmem
  have := List.all_eq_true.mp hall c hmem
  rw [hc] at this
  exact Bool.false_ne_true this

theorem contains_eq_false_iff {l : List Char} {c : Char} :
    l.contains c = false ↔ c ∉ l := by
  constructor
  · intro h hmem
    have : l.contains c = true := by
      simpa [List.contains, List.elem_eq_mem] using hmem
    rw [h] at this
    exact Bool.false_ne_true this
  · intro h
    simpa [List.contains, List.elem_eq_mem] using h

theorem parseNode_lit {s : List Char} (h : wfNode (.lit s) = true) :
    parseNode s = .ok (.lit s) := by
  simp only [wfNode, Bool.and_eq_true, Bool.not_eq_true'] at h
  obtain ⟨⟨h1, h2⟩, h3⟩ := h
  have hcond : (s.contains lbrace || s.contains rbrace) = false := by
    rw [h2, h3]
    rfl
  simp only [parseNode, hcond, Bool.false_eq_true, if_false]

theorem intercalate_pair (sep x y : List Char) :
    List.intercalate sep [x, y] = x ++ sep ++ y := by
  simp [List.intercalate, List.intersperse, List.flatten, List.append_assoc]

theorem intercalate_triple (sep x y z : List Char) :
    List.intercalate sep [x, y, z] = x ++ sep ++ (y ++ sep ++ z) := by
  simp [List.intercalate, List.intersperse, List.flatten, List.append_assoc]

theorem parseNode_param {p : PathParam} (h : wfParam p = true) :
    parseNode (odinwebNodeFormatter p) = .ok (.param p) := by
  obtain ⟨name, ty?, args?⟩ := p
  simp only [wfParam, Bool.and_eq_true] at h
  obtain ⟨⟨hname, hsome⟩, hargs⟩ := h
  obtain ⟨t, rfl⟩ : ∃ t, ty? = some t := Option.isSome_iff_exists.mp hsome
  obtain ⟨a, nt, rfl⟩ : ∃ a nt, name = a :: nt := by
    match name with
    | [] => exact absurd hname (by simp [wfName])
    | a :: nt => exact ⟨a, nt, rfl⟩
  simp only [wfName, Bool.and_eq_true] at hname
  obtain ⟨ha, hnt⟩ := hname
  obtain ⟨b, tt, htn⟩ : ∃ b tt, tyName t = b :: tt := by
    match htn : tyName t with
    | [] => exact absurd (tyName_wf t) (by simp [wfName, htn])
    | b :: tt => exact ⟨b, tt, rfl⟩
  have htw : wfName (tyName t) = true := tyName_wf t
  rw [htn] at htw
  simp only [wfName, Bool.and_eq_true] at htw
  obtain ⟨hb, htt⟩ := htw
  match args? with
  | none =>
    have hfmt : odinwebNodeFormatter ⟨a :: nt, some t, none⟩ =
        lbrace :: (((a :: nt) ++ ':' :: tyName t) ++ [rbrace]) := by
      simp [odinwebNodeFormatter, intercalate_pair, List.append_assoc]
    rw [hfmt]
    have hmatch : matchPathNode (lbrace :: (((a :: nt) ++ ':' :: tyName t) ++ [rbrace])) =
        some (a :: nt, some (tyName t), none) := by
      rw [matchPathNode_wrap]
      rw [show (a :: nt) ++ ':' :: tyName t = a :: (nt ++ ':' :: b :: tt) by
        simp [htn]]
      rw [htn]
      exact matchInterior_type ha hnt hb htt
    rw [parseNode, if_pos (by simp), hmatch]
    simp [tyOfName_tyName]
  | some ar =>
    simp only [Bool.and_eq_true, Bool.not_eq_true'] at hargs
    obtain ⟨harne, harg⟩ := hargs
    have hfmt : odinwebNodeFormatter ⟨a :: nt, some t, some ar⟩ =
        lbrace :: ((((a :: nt) ++ ':' :: tyName t) ++ ':' :: ar) ++ [rbrace]) := by
      simp [odinwebNodeFormatter, intercalate_triple, List.append_assoc,
        show ar.isEmpty = false from harne]
    rw [hfmt]
    have hmatch : matchPathNode
        (lbrace :: ((((a :: nt) ++ ':' :: tyName t) ++ ':' :: ar) ++ [rbrace])) =
        some (a :: nt, some (tyName t), some ar) := by
      rw [matchPathNode_wrap]
      rw [show ((a :: nt) ++ ':' :: tyName t) ++ ':' :: ar =
          a :: (nt ++ ':' :: b :: (tt ++ ':' :: ar)) by simp [htn, List.append_assoc]]
      rw [htn]
      exact matchInterior_type_args ha hnt hb htt harne harg
    rw [parseNode, if_pos (by simp), hmatch]
    simp [tyOfName_tyName]

theorem parseNode_render {n : UNode} (h : wfNode n = true) :
    parseNode (renderNode n) = .ok n := by
  match n with
  | .lit s => exact parseNode_lit h
  | .param p => exact parseNode_param (by simpa [wfNode] using h)

theorem intercalate_one (sep x : List Char) : List.intercalate sep [x] = x := by
  simp [List.intercalate, List.intersperse]

theorem intercalate_cons_cons (sep x y : List Char) (ys : List (List Char)) :
    List.intercalate sep (x :: y :: ys) = (x ++ sep) ++ List.intercalate sep (y :: ys) := by
  simp [List.intercalate, List.intersperse_cons_cons, List.flatten_cons, List.append_assoc]

theorem intercalate_slash_getLast :
    ∀ (xs : List (List Char)) (x : List Char),
      (∀ ch ∈ x :: xs, '/' ∉ ch) → (x :: xs).getLast? ≠ some ([] : List Char) →
      (List.intercalate ['/'] (x :: xs)).getLast? ≠ some '/' := by
  intro xs
  induction xs with
  | nil =>
    intro x hmem hlast
    rw [intercalate_one]
    intro hcontra
    exact hmem x (by simp) (List.mem_of_getLast?_eq_some hcontra)
  | cons y ys ih =>
    intro x hmem hlast
    rw [intercalate_cons_cons, List.getLast?_append]
    have hych : ∀ ch ∈ y :: ys, '/' ∉ ch := fun ch hch => hmem ch (List.mem_cons_of_mem _ hch)
    have hylast : (y :: ys).getLast? ≠ some ([] : List Char) := by
      rw [← List.getLast?_cons_cons (a := x)]
      exact hlast
    have hI := ih y hych hylast
    cases hl : (List.intercalate ['/'] (y :: ys)).getLast? with
    | some d =>
      rw [hl] at hI
      simpa using hI
    | none =>
      exfalso
      have hnil : List.intercalate ['/'] (y :: ys) = [] := List.getLast?_eq_none_iff.mp hl
      cases ys with
      | nil =>
        rw [intercalate_one] at hnil
        exact hylast (by rw [hnil]; rfl)
      | cons z zs =>
        rw [intercalate_cons_cons] at hnil
        simp at hnil

theorem rstripSlash_eq_self {s : List Char} (h : s.getLast? ≠ some '/') :
    rstripSlash s = s := by
  rw [rstripSlash]
  cases hrev : s.reverse with
  | nil =>
    have hs : s = [] := List.reverse_eq_nil_iff.mp hrev
    simp [hs]
  | cons a t =>
    have hhead : s.getLast? = some a := by
      rw [List.getLast?_eq_head?_reverse, hrev]
      rfl
    have ha : (a == '/') = false := by
      rw [hhead] at h
      simpa using fun hc => h (by rw [hc])
    rw [List.dropWhile_cons, ha]
    simp only [Bool.false_eq_true, if_false]
    rw [← hrev, List.reverse_reverse]

theorem renderNode_ne_nil {n : UNode} (hne : n ≠ .lit []) : renderNode n ≠ [] := by
  match n with
  | .lit [] => exact absurd rfl hne
  | .lit (c :: cs) => simp [renderNode]
  | .param p => simp [renderNode, odinwebNodeFormatter]

theorem slash_not_word : isWordChar '/' = false := by decide

theorem slash_not_arg : isArgChar '/' = false := by decide

theorem not_mem_name {s : List Char} (h : wfName s = true) : '/' ∉ s := by
  match s with
  | [] => simp
  | a :: t =>
    simp only [wfName, Bool.and_eq_true] at h
    intro hmem
    rcases List.mem_cons.mp hmem with heq | hmem'
    · rw [← heq] at h
      exact Bool.false_ne_true ((slash_not_word ▸ rfl : ('/').isAlpha = false) ▸ h.1)
    · exact not_mem_of_all h.2 slash_not_word hmem'

theorem renderNode_no_slash {n : UNode} (h : wfNode n = true) : '/' ∉ renderNode n := by
  match n with
  | .lit s =>
    simp only [wfNode, Bool.and_eq_true, Bool.not_eq_true'] at h
    exact contains_eq_false_iff.mp h.1.1
  | .param p =>
    obtain ⟨name, ty?, args?⟩ := p
    simp only [wfNode, wfParam, Bool.and_eq_true] at h
    obtain ⟨⟨hname, hsome⟩, hargs⟩ := h
    obtain ⟨t, rfl⟩ : ∃ t, ty? = some t := Option.isSome_iff_exists.mp hsome
    have hn : '/' ∉ name := not_mem_name hname
    have hty : '/' ∉ tyName t := not_mem_name (tyName_wf t)
    have hbrace : ('/' : Char) ≠ lbrace := by decide
    have hbrace' : ('/' : Char) ≠ rbrace := by decide
    have hcolon : ('/' : Char) ≠ ':' := by decide
    match args? with
    | none =>
      simp only [renderNode, odinwebNodeFormatter, intercalate_pair]
      simp [List.mem_append, hn, hty, hbrace, hbrace', hcolon]
      rw [intercalate_pair]
      simp [List.mem_append, hn, hty, hcolon]
    | some ar =>
      simp only [Bool.and_eq_true, Bool.not_eq_true'] at hargs
      have har : '/' ∉ ar := not_mem_of_all hargs.2 slash_not_arg
      simp only [renderNode, odinwebNodeFormatter, hargs.1, intercalate_triple]
      simp [List.mem_append, hn, hty, har, hbrace, hbrace', hcolon]
      rw [intercalate_triple]
      simp [List.mem_append, hn, hty, har, hcolon]

theorem mapM_parseNode_ok :
    ∀ {nodes : List UNode}, (∀ n ∈ nodes, parseNode (renderNode n) = .ok n) →
      (nodes.map renderNode).mapM parseNode = Except.ok nodes := by
  intro nodes h
  induction nodes with
  | nil => rfl
  | cons n ns ih =>
    rw [List.map_cons, List.mapM_cons, h n (by simp),
      ih (fun m hm => h m (List.mem_cons_of_mem _ hm))]
    rfl

theorem intercalate_slash_ne_nil (x : List Char) (xs : List (List Char))
    (hlastchunk : (x :: xs).getLast? ≠ some ([] : List Char)) :
    List.intercalate ['/'] (x :: xs) ≠ [] := by
  cases xs with
  | nil =>
    rw [intercalate_one]
    intro hc
    exact hlastchunk (by rw [hc]; rfl)
  | cons y ys =>
    rw [intercalate_cons_cons]
    simp

/-- C5 amended: `UrlPath.parse(p.format()) == p` holds for every path whose
literal nodes contain no `/` or braces, whose parameter nodes carry a
regex-conformant name, a type, and either no type arguments or a nonempty
argument string over the regex's character class, and which has no trailing
empty literal node (formatting such a path ends in `/`, which `parse`
strips). -/
theorem c5_amended_parse_format (p : UrlPath) (h : wfPath p = true) :
    urlPathParse (urlPathFormat p) = .ok p := by
  obtain ⟨nodes⟩ := p
  simp only [wfPath, Bool.and_eq_true, Bool.or_eq_true] at h
  obtain ⟨hall, hshape⟩ := h
  have hallm : ∀ n ∈ nodes, wfNode n = true := fun n hn => List.all_eq_true.mp hall n hn
  have hmain : ∀ (x : UNode) (xs : List UNode),
      (x :: xs).getLast? ≠ some (UNode.lit []) →
      (∀ n ∈ x :: xs, wfNode n = true) →
      urlPathParse (urlPathFormat ⟨x :: xs⟩) = .ok ⟨x :: xs⟩ := by
    intro x xs hlast hwf
    have hne_single : x :: xs ≠ [UNode.lit []] := by
      intro hc
      rw [hc] at hlast
      exact hlast rfl
    have hformat : urlPathFormat ⟨x :: xs⟩ =
        List.intercalate ['/'] ((x :: xs).map renderNode) := by
      rw [urlPathFormat, if_neg]
      simpa using hne_single
    have hnoslash : ∀ ch ∈ (x :: xs).map renderNode, '/' ∉ ch := by
      intro ch hch
      rcases List.mem_map.mp hch with ⟨n, hn, rfl⟩
      exact renderNode_no_slash (hwf n hn)
    obtain ⟨m, hm⟩ : ∃ m, (x :: xs).getLast? = some m := by
      cases hgl : (x :: xs).getLast? with
      | none => exact absurd (List.getLast?_eq_none_iff.mp hgl) (by simp)
      | some m => exact ⟨m, rfl⟩
    have hmne : m ≠ .lit [] := fun hc => hlast (by rw [hm, hc])
    have hlastchunk : ((x :: xs).map renderNode).getLast? ≠ some ([] : List Char) := by
      rw [List.getLast?_map, hm]
      intro hc
      exact renderNode_ne_nil hmne (by simpa using hc)
    have hSlast : (List.intercalate ['/'] ((x :: xs).map renderNode)).getLast? ≠
        some '/' := by
      rw [List.map_cons]
      apply intercalate_slash_getLast
      · rw [← List.map_cons]
        exact hnoslash
      · rw [← List.map_cons]
        exact hlastchunk
    have hSne : List.intercalate ['/'] ((x :: xs).map renderNode) ≠ [] := by
      rw [List.map_cons]
      apply intercalate_slash_ne_nil
      rw [← List.map_cons]
      exact hlastchunk
    rw [hformat, urlPathParse, if_neg hSne, rstripSlash_eq_self hSlast]
    have hsplit : (List.intercalate ['/'] ((x :: xs).map renderNode)).splitOn '/' =
        (x :: xs).map renderNode :=
      List.splitOn_intercalate ((x :: xs).map renderNode) '/' hnoslash (by simp)
    rw [hsplit, mapM_parseNode_ok (fun n hn => parseNode_render (hwf n hn))]
    rfl
  rcases hshape with (h0 | h1) | h2
  · have hnil : nodes = [] := by simpa using h0
    subst hnil
    decide
  · have hroot : nodes = [UNode.lit []] := by simpa using h1
    subst hroot
    decide
  · have hlast : nodes.getLast? ≠ some (UNode.lit []) := by simpa using h2
    clear h2 hall
    match nodes, hlast, hallm with
    | [], _, _ => decide
    | x :: xs, hlast', hallm' => exact hmain x xs hlast' hallm'

/-- C5 counterexample: the path with literal nodes `['a', '']` formats to
`"a/"`, and parsing that (which right-strips the slash) returns the one-node
path `['a']`, not the original path. -/
theorem c5_counterexample :
    urlPathParse (urlPathFormat ⟨[.lit "a".data, .lit []]⟩) ≠
      .ok ⟨[.lit "a".data, .lit []]⟩ := by
  decide

/-- Witness for C5: the absolute path `/api/{id:Integer}` round trips. -/
theorem c5_witness :
    urlPathParse (urlPathFormat ⟨[.lit [], .lit "api".data,
        .param ⟨"id".data, some .Integer, none⟩]⟩) =
      .ok ⟨[.lit [], .lit "api".data, .param ⟨"id".data, some .Integer, none⟩]⟩ :=
  c5_amended_parse_format _ (by decide)
